import Mathlib

/-!
Shallow embedding of `packageLoader.py` from the BEE2.4 repository, together
with theorems checking the natural-language specification against it.

Modelling conventions, used throughout:
* A parsed property tree (the external `property_parser.Property`) is a
  `PTree`: a named leaf carrying a string value, or a named node carrying an
  ordered list of children.  `Property.parse` of an archive entry is modelled
  by storing the already-parsed tree as the entry's content.
* A Python `dict` is an association list with Python's insertion semantics:
  updating an existing key replaces its value in place, a new key is appended
  at the end.  `dictGet?` is lookup, `dictInsert` is `d[k] = v`.
* A Python exception is an `Except PakErr` result; an uncaught exception
  propagates as the `.error` constructor through the callers.
* `sys.stdout` logging (`print`, `utils.con_log`) is modelled, where a claim
  refers to it, as an explicit list of emitted strings.
-/

namespace BEE2

/-- A parsed property tree: `leaf name value` is a key/value line, and
`node name children` is a block.  This models the external property format
at the boundary the spec describes (ordered tree of named nodes). -/
inductive PTree where
  | leaf (n : String) (v : String)
  | node (n : String) (cs : List PTree)

/-- Name of a property node. -/
def PTree.name : PTree → String
  | .leaf n _ => n
  | .node n _ => n

/-- Children of a property node (a leaf has none). -/
def PTree.children : PTree → List PTree
  | .leaf _ _ => []
  | .node _ cs => cs

/-- String value of a leaf node; a block has no string value. -/
def PTree.sval? : PTree → Option String
  | .leaf _ v => some v
  | .node _ _ => none

/-- Value of the first child named `k`, as in Python `info[k]` when the child
is a plain key/value line.  Returns `none` when no such child exists (the
source raises in that case when no default was supplied). -/
def getVal? (t : PTree) (k : String) : Option String :=
  (t.children.find? (fun c => c.name == k)).bind PTree.sval?

/-- Value of the first child named `k` with a default, as in Python
`info[k, d]`. -/
def getDf (t : PTree) (k d : String) : String :=
  (getVal? t k).getD d

/-- All children named `k`, as in `Property.find_all(info, k)`. -/
def findAll (t : PTree) (k : String) : List PTree :=
  t.children.filter (fun c => c.name == k)

/-- First child named `k` or an error, as in `Property.find_key` without a
default (which raises when the key is absent). -/
def findKeyE (t : PTree) (k : String) : Except String PTree :=
  match t.children.find? (fun c => c.name == k) with
  | some c => .ok c
  | none => .error k

/-! ### Python dict as an association list -/

/-- Python dict lookup `d.get(k)` / `d[k]` on an association list. -/
def dictGet? {β : Type _} : List (String × β) → String → Option β
  | [], _ => none
  | p :: t, k => if p.1 = k then some p.2 else dictGet? t k

/-- Python dict update `d[k] = v`: replace in place when the key exists,
append otherwise. -/
def dictInsert {β : Type _} : List (String × β) → String → β → List (String × β)
  | [], k, v => [(k, v)]
  | p :: t, k, v => if p.1 = k then (k, v) :: t else p :: dictInsert t k v

theorem dictGet_insert_self {β : Type _} (m : List (String × β)) (k : String) (v : β) :
    dictGet? (dictInsert m k v) k = some v := by
  induction m with
  | nil => simp [dictInsert, dictGet?]
  | cons p t ih =>
    by_cases h : p.1 = k
    · simp [dictInsert, h, dictGet?]
    · simp [dictInsert, h, dictGet?, ih]

theorem dictGet_insert_ne {β : Type _} (m : List (String × β)) (k k' : String) (v : β)
    (h : k' ≠ k) : dictGet? (dictInsert m k v) k' = dictGet? m k' := by
  induction m with
  | nil => simp [dictInsert, dictGet?, Ne.symm h]
  | cons p t ih =>
    by_cases hp : p.1 = k
    · subst hp
      simp [dictInsert, dictGet?, Ne.symm h]
    · simp [dictInsert, hp, dictGet?, ih]

theorem dictGet_mem {β : Type _} {m : List (String × β)} {k : String} {v : β}
    (h : dictGet? m k = some v) : (k, v) ∈ m := by
  induction m with
  | nil => simp [dictGet?] at h
  | cons p t ih =>
    obtain ⟨p1, p2⟩ := p
    by_cases hp : p1 = k
    · subst hp
      simp [dictGet?] at h
      subst h
      exact List.Mem.head _
    · simp [dictGet?, hp] at h
      exact List.Mem.tail _ (ih h)

theorem dictGet_of_mem_nodup {β : Type _} {m : List (String × β)} {k : String} {v : β}
    (hnd : (m.map Prod.fst).Nodup) (h : (k, v) ∈ m) : dictGet? m k = some v := by
  induction m with
  | nil => simp at h
  | cons p t ih =>
    simp only [List.map_cons, List.nodup_cons] at hnd
    rw [List.mem_cons] at h
    rcases h with h | h
    · rw [← h]
      simp [dictGet?]
    · have hk : p.1 ≠ k := by
        intro he
        exact hnd.1 (he ▸ (List.mem_map.mpr ⟨(k, v), h, rfl⟩))
      simp [dictGet?, hk, ih hnd.2 h]

theorem mem_nodup_unique {β : Type _} {m : List (String × β)} {k : String} {a b : β}
    (hnd : (m.map Prod.fst).Nodup) (h1 : (k, a) ∈ m) (h2 : (k, b) ∈ m) : a = b := by
  have ha := dictGet_of_mem_nodup hnd h1
  have hb := dictGet_of_mem_nodup hnd h2
  rw [ha] at hb
  exact Option.some.inj hb

theorem dictInsert_keys_subset {β : Type _} (m : List (String × β)) (k x : String) (v : β)
    (hx : x ≠ k) (hm : x ∉ m.map Prod.fst) : x ∉ (dictInsert m k v).map Prod.fst := by
  induction m with
  | nil => simpa [dictInsert] using hx
  | cons p t ih =>
    simp only [List.map_cons, List.mem_cons] at hm
    push_neg at hm
    by_cases hp : p.1 = k
    · simp [dictInsert, hp, hx, hm.2]
    · simp only [dictInsert, hp, if_false, List.map_cons, List.mem_cons]
      push_neg
      exact ⟨hm.1, ih hm.2⟩

theorem dictInsert_nodup_keys {β : Type _} (m : List (String × β)) (k : String) (v : β)
    (h : (m.map Prod.fst).Nodup) : ((dictInsert m k v).map Prod.fst).Nodup := by
  induction m with
  | nil => simp [dictInsert]
  | cons p t ih =>
    simp only [List.map_cons, List.nodup_cons] at h
    by_cases hp : p.1 = k
    · simpa [dictInsert, hp, hp ▸ h.1] using h.2
    · simp only [dictInsert, hp, if_false, List.map_cons, List.nodup_cons]
      exact ⟨dictInsert_keys_subset t k p.1 v hp h.1, ih h.2⟩

theorem dictInsert_forall {β : Type _} {P : String × β → Prop} {m : List (String × β)}
    {k : String} {v : β} (hm : ∀ p ∈ m, P p) (hkv : P (k, v)) :
    ∀ p ∈ dictInsert m k v, P p := by
  induction m with
  | nil => simpa [dictInsert]
  | cons q t ih =>
    intro p hp
    by_cases hq : q.1 = k
    · simp only [dictInsert, hq, if_true, List.mem_cons] at hp
      rcases hp with hp | hp
      · exact hp ▸ hkv
      · exact hm p (.tail _ hp)
    · simp only [dictInsert, hq, if_false, List.mem_cons] at hp
      rcases hp with hp | hp
      · exact hp ▸ hm q (.head _)
      · exact ih (fun r hr => hm r (.tail _ hr)) p hp

/-! ### Styles and the style tree (`setup_style_tree`, source lines 130-159)

The `Style` class of the source carries name, authors, description, icon,
editor data, configuration and suggestions; none of those fields is read by
`setup_style_tree`, so the embedding keeps only the two fields it uses:
`id` and `base_style`. -/

/-- A parsed style, restricted to the fields `setup_style_tree` reads. -/
structure Style where
  id : String
  base_style : Option String

/-- The `styles` index built by the first loop of `setup_style_tree`:
`styles[style.id] = style` for each style in declaration order. -/
def mkIndex (l : List Style) : List (String × Style) :=
  l.foldl (fun m s => dictInsert m s.id s) []

/-- One version of an item at `setup_style_tree` time: its `styles` dict and
its `def_style` entry.  The data stored per style is opaque here (`α`); in
the real pipeline it is the folder-data structure produced by `Item.parse`. -/
structure SVer (α : Type _) where
  styles : List (String × α)
  def_style : α

/-- An item at `setup_style_tree` time: just its list of versions. -/
structure SItem (α : Type _) where
  versions : List (SVer α)

/-- The slice of the `data` dict that `setup_style_tree` touches:
`data['Style']` and `data['Item']`. -/
structure SData (α : Type _) where
  styles : List Style
  items : List (SItem α)

/-- The advance step of the chain loop:
`b_style = styles.get(b_style.base_style, None)`.  A `base_style` of `None`
is never a dict key, so it also yields `None`. -/
def nextStyle (idx : List (String × Style)) (s : Style) : Option Style :=
  s.base_style.bind (dictGet? idx)

/-- The `while b_style is not None` loop of `setup_style_tree` (source lines
139-144), which appends the current style and advances to its base.  The
source has no cycle guard, so the loop need not terminate; the embedding
makes that explicit with a fuel parameter: `none` means the fuel ran out
while the loop was still running. -/
def chainLoop (idx : List (String × Style)) : Nat → Option Style → Option (List Style)
  | _, none => some []
  | 0, some _ => none
  | n + 1, some s => (chainLoop idx n (nextStyle idx s)).map (fun r => s :: r)

/-- The first loop of `setup_style_tree`: compute `style.bases` for every
entry of the style index, pairing each index key with its chain.  Fails
(propagating the fuel exhaustion) when any chain fails to terminate. -/
def computeChains (idx : List (String × Style)) (fuel : Nat) :
    List (String × Style) → Option (List (String × List Style))
  | [] => some []
  | (k, s) :: t =>
    match chainLoop idx fuel (some s), computeChains idx fuel t with
    | some c, some r => some ((k, c) :: r)
    | _, _ => none

/-- The inner `for base_style in style.bases` loop: the value of the first
chain element whose id is a key of `m`, if any. -/
def firstPresentM {α : Type _} (m : List (String × α)) : List Style → Option α
  | [] => none
  | b :: t =>
    match dictGet? m b.id with
    | some x => some x
    | none => firstPresentM m t

/-- One iteration of `for id, style in styles.items()` over an item version
(source lines 150-159): skip styles already present, otherwise copy the first
present ancestor's data, falling back to `def_style`. -/
def resStep {α : Type _} (defst : α) (m : List (String × α)) (kc : String × List Style) :
    List (String × α) :=
  if (dictGet? m kc.1).isSome then m
  else
    match firstPresentM m kc.2 with
    | some x => dictInsert m kc.1 x
    | none => dictInsert m kc.1 defst

/-- Resolution of one item version against every indexed style and its
precomputed chain. -/
def resolveVersion {α : Type _} (ch : List (String × List Style)) (v : SVer α) : SVer α :=
  ⟨ch.foldl (resStep v.def_style) v.styles, v.def_style⟩

/-- `setup_style_tree` (source lines 130-159): index the styles, compute every
style's base chain, then fill in missing style data on every item version.
Returns `none` when a base chain fails to terminate within the given fuel
(the source would loop forever in that case). -/
def setupStyleTree {α : Type _} (fuel : Nat) (d : SData α) : Option (SData α) :=
  match computeChains (mkIndex d.styles) fuel (mkIndex d.styles) with
  | none => none
  | some ch =>
    some ⟨d.styles, d.items.map (fun it => ⟨it.versions.map (resolveVersion ch)⟩)⟩

/-! ### Lemmas about the chain loop -/

theorem chainLoop_none (idx : List (String × Style)) (n : Nat) :
    chainLoop idx n none = some [] := by
  cases n <;> rfl

theorem chainLoop_zero (idx : List (String × Style)) (s : Style) :
    chainLoop idx 0 (some s) = none := rfl

theorem chainLoop_succ (idx : List (String × Style)) (n : Nat) (s : Style) :
    chainLoop idx (n + 1) (some s)
      = (chainLoop idx n (nextStyle idx s)).map (fun r => s :: r) := rfl

theorem chainLoop_shape {idx : List (String × Style)} {n : Nat} {s : Style} {c : List Style}
    (h : chainLoop idx n (some s) = some c) :
    ∃ n' t, n = n' + 1 ∧ c = s :: t ∧ chainLoop idx n' (nextStyle idx s) = some t := by
  cases n with
  | zero => simp [chainLoop_zero] at h
  | succ n =>
    rw [chainLoop_succ] at h
    cases ht : chainLoop idx n (nextStyle idx s) with
    | none => rw [ht] at h; cases h
    | some t =>
      rw [ht] at h
      exact ⟨n, t, rfl, (Option.some.inj h).symm, ht⟩

theorem chainLoop_mono {idx : List (String × Style)} :
    ∀ {n m : Nat} {st : Option Style} {r : List Style},
      chainLoop idx n st = some r → n ≤ m → chainLoop idx m st = some r := by
  intro n
  induction n with
  | zero =>
    intro m st r h _
    cases st with
    | none => rw [chainLoop_none] at h; rw [← h, chainLoop_none]
    | some s => simp [chainLoop_zero] at h
  | succ n ih =>
    intro m st r h hle
    cases st with
    | none => rw [chainLoop_none] at h; rw [← h, chainLoop_none]
    | some s =>
      obtain ⟨n', t, hn, hc, hnext⟩ := chainLoop_shape h
      have hn' : n' = n := by omega
      subst hn'
      obtain ⟨m', hm⟩ : ∃ m', m = m' + 1 := ⟨m - 1, by omega⟩
      subst hm
      rw [chainLoop_succ, ih hnext (by omega), hc]
      rfl

theorem chainLoop_drop {idx : List (String × Style)}
    (hcoh : ∀ p ∈ idx, (Prod.snd p).id = p.1) :
    ∀ (j : Nat) {n : Nat} {s : Style} {c : List Style},
      chainLoop idx n (some s) = some c → dictGet? idx s.id = some s →
      ∀ {b : Style} {t : List Style}, c.drop j = b :: t →
        chainLoop idx n (some b) = some (b :: t) ∧ dictGet? idx b.id = some b := by
  intro j
  induction j with
  | zero =>
    intro n s c h hs b t hdrop
    simp only [List.drop_zero] at hdrop
    obtain ⟨n', t', _, hc, _⟩ := chainLoop_shape h
    rw [hdrop] at hc
    have hb : b = s := by cases hc; rfl
    subst hb
    exact ⟨hdrop ▸ h, hs⟩
  | succ j ih =>
    intro n s c h hs b t hdrop
    obtain ⟨n', t', hn, hc, hnext⟩ := chainLoop_shape h
    subst hn hc
    rw [List.drop_succ_cons] at hdrop
    cases hnx : nextStyle idx s with
    | none =>
      rw [hnx, chainLoop_none] at hnext
      rw [← Option.some.inj hnext, List.drop_nil] at hdrop
      cases hdrop
    | some s1 =>
      rw [hnx] at hnext
      obtain ⟨base, hbase, hget⟩ : ∃ base, s.base_style = some base ∧ dictGet? idx base = some s1 := by
        cases hb : s.base_style with
        | none => rw [nextStyle, hb] at hnx; cases hnx
        | some base => rw [nextStyle, hb] at hnx; exact ⟨base, rfl, hnx⟩
      have hid : s1.id = base := hcoh (base, s1) (dictGet_mem hget)
      have hs1 : dictGet? idx s1.id = some s1 := by rw [hid]; exact hget
      obtain ⟨hcl, hgb⟩ := ih hnext hs1 hdrop
      exact ⟨chainLoop_mono hcl (by omega), hgb⟩

/-! ### Lemmas about `computeChains` and `mkIndex` -/

theorem computeChains_keys {idx : List (String × Style)} {fuel : Nat} :
    ∀ {l : List (String × Style)} {ch : List (String × List Style)},
      computeChains idx fuel l = some ch → ch.map Prod.fst = l.map Prod.fst := by
  intro l
  induction l with
  | nil => intro ch h; cases h; rfl
  | cons p t ih =>
    intro ch h
    obtain ⟨k, s⟩ := p
    rw [computeChains] at h
    cases hc : chainLoop idx fuel (some s) with
    | none => rw [hc] at h; cases h
    | some c =>
      cases hr : computeChains idx fuel t with
      | none => rw [hc, hr] at h; cases h
      | some r =>
        rw [hc, hr] at h
        cases h
        simp [ih hr]

theorem computeChains_mem_of {idx : List (String × Style)} {fuel : Nat} :
    ∀ {l : List (String × Style)} {ch : List (String × List Style)},
      computeChains idx fuel l = some ch →
      ∀ {k : String} {c : List Style}, (k, c) ∈ ch →
        ∃ s, (k, s) ∈ l ∧ chainLoop idx fuel (some s) = some c := by
  intro l
  induction l with
  | nil => intro ch h k c hm; cases h; simp at hm
  | cons p t ih =>
    intro ch h k c hm
    obtain ⟨k0, s0⟩ := p
    rw [computeChains] at h
    cases hc : chainLoop idx fuel (some s0) with
    | none => rw [hc] at h; cases h
    | some c0 =>
      cases hr : computeChains idx fuel t with
      | none => rw [hc, hr] at h; cases h
      | some r =>
        rw [hc, hr] at h
        cases h
        rw [List.mem_cons] at hm
        rcases hm with hm | hm
        · cases hm
          exact ⟨s0, List.Mem.head _, hc⟩
        · obtain ⟨s, hsl, hcl⟩ := ih hr hm
          exact ⟨s, List.Mem.tail _ hsl, hcl⟩

theorem computeChains_mem_to {idx : List (String × Style)} {fuel : Nat} :
    ∀ {l : List (String × Style)} {ch : List (String × List Style)},
      computeChains idx fuel l = some ch →
      ∀ {k : String} {s : Style}, (k, s) ∈ l →
        ∃ c, (k, c) ∈ ch ∧ chainLoop idx fuel (some s) = some c := by
  intro l
  induction l with
  | nil => intro ch h k s hm; simp at hm
  | cons p t ih =>
    intro ch h k s hm
    obtain ⟨k0, s0⟩ := p
    rw [computeChains] at h
    cases hc : chainLoop idx fuel (some s0) with
    | none => rw [hc] at h; cases h
    | some c0 =>
      cases hr : computeChains idx fuel t with
      | none => rw [hc, hr] at h; cases h
      | some r =>
        rw [hc, hr] at h
        cases h
        rw [List.mem_cons] at hm
        rcases hm with hm | hm
        · cases hm
          exact ⟨c0, List.Mem.head _, hc⟩
        · obtain ⟨c, hcr, hcl⟩ := ih hr hm
          exact ⟨c, List.Mem.tail _ hcr, hcl⟩

theorem mkIndex_coherent (l : List Style) :
    ∀ p ∈ mkIndex l, (Prod.snd p).id = p.1 := by
  have go : ∀ (l : List Style) (m : List (String × Style)),
      (∀ p ∈ m, (Prod.snd p).id = p.1) →
      ∀ p ∈ l.foldl (fun m s => dictInsert m s.id s) m, (Prod.snd p).id = p.1 := by
    intro l
    induction l with
    | nil => intro m hm; simpa using hm
    | cons s t ih =>
      intro m hm
      exact ih _ (dictInsert_forall hm rfl)
  exact go l [] (by simp)

theorem mkIndex_nodup (l : List Style) : ((mkIndex l).map Prod.fst).Nodup := by
  have go : ∀ (l : List Style) (m : List (String × Style)),
      (m.map Prod.fst).Nodup →
      ((l.foldl (fun m s => dictInsert m s.id s) m).map Prod.fst).Nodup := by
    intro l
    induction l with
    | nil => intro m hm; simpa using hm
    | cons s t ih =>
      intro m hm
      exact ih _ (dictInsert_nodup_keys m s.id s hm)
  exact go l [] (by simp)

/-- Every suffix of a computed chain is itself the recorded chain of its own
head style.  This is the coherence property the inheritance proof needs. -/
def ChainOK (ch : List (String × List Style)) (c : List Style) : Prop :=
  ∀ j b t, c.drop j = b :: t → (b.id, b :: t) ∈ ch

theorem chains_chainOK {sl : List Style} {fuel : Nat} {ch : List (String × List Style)}
    (hch : computeChains (mkIndex sl) fuel (mkIndex sl) = some ch) :
    ∀ kc ∈ ch, ChainOK ch kc.2 ∧ ∃ s t, kc.2 = s :: t ∧ s.id = kc.1 := by
  intro kc hmem
  obtain ⟨k, c⟩ := kc
  obtain ⟨s, hsl, hcl⟩ := computeChains_mem_of hch hmem
  have hcoh := mkIndex_coherent sl
  have hsid : s.id = k := hcoh (k, s) hsl
  have hs : dictGet? (mkIndex sl) s.id = some s :=
    dictGet_of_mem_nodup (mkIndex_nodup sl) (hsid ▸ hsl)
  constructor
  · intro j b t hdrop
    obtain ⟨hcb, hgb⟩ := chainLoop_drop hcoh j hcl hs hdrop
    obtain ⟨c', hc', hcl'⟩ := computeChains_mem_to hch (dictGet_mem hgb)
    rw [hcb] at hcl'
    cases hcl'
    exact hc'
  · obtain ⟨n', t, _, hc, _⟩ := chainLoop_shape hcl
    exact ⟨s, t, hc, hsid⟩

/-! ### The resolution fold: invariants -/

/-- Invariant A: every entry of the original mapping is still present,
unchanged (the resolution loop only ever adds missing keys). -/
def InvA {α : Type _} (v0 m : List (String × α)) : Prop :=
  ∀ k x, dictGet? v0 k = some x → dictGet? m k = some x

/-- Invariant B: every entry of the current mapping is either an original
entry or the resolved value for one of the processed styles, computed from
the original mapping only. -/
def InvB {α : Type _} (v0 : List (String × α)) (defst : α)
    (p : List (String × List Style)) (m : List (String × α)) : Prop :=
  ∀ k x, dictGet? m k = some x →
    dictGet? v0 k = some x ∨ ∃ c, (k, c) ∈ p ∧ x = (firstPresentM v0 c).getD defst

theorem invB_mono {α : Type _} {v0 : List (String × α)} {defst : α}
    {p q : List (String × List Style)} {m : List (String × α)}
    (hsub : ∀ r ∈ p, r ∈ q) (h : InvB v0 defst p m) : InvB v0 defst q m := by
  intro k x hx
  rcases h k x hx with h | ⟨c, hc, h⟩
  · exact .inl h
  · exact .inr ⟨c, hsub _ hc, h⟩

/-- The inner scan of a coherent chain over the current mapping yields the
same value (after the `def_style` fallback) as the scan over the original
mapping: entries added by earlier iterations are themselves resolved values,
and coherence of chains makes them agree with the original-mapping scan. -/
theorem chainEval {α : Type _} (defst : α) (v0 m : List (String × α))
    (ch : List (String × List Style)) (hnd : (ch.map Prod.fst).Nodup)
    (hA : InvA v0 m) (hB : InvB v0 defst ch m) :
    ∀ c, ChainOK ch c →
      (firstPresentM m c).getD defst = (firstPresentM v0 c).getD defst := by
  intro c
  induction c with
  | nil => intro _; rfl
  | cons b t ih =>
    intro hok
    have htail : ChainOK ch t := by
      intro j b' t' hd
      exact hok (j + 1) b' t' (by rw [List.drop_succ_cons]; exact hd)
    cases hv0 : dictGet? v0 b.id with
    | some y =>
      have hm := hA b.id y hv0
      simp [firstPresentM, hm, hv0]
    | none =>
      cases hm : dictGet? m b.id with
      | none =>
        simp only [firstPresentM, hm, hv0]
        exact ih htail
      | some x =>
        rcases hB b.id x hm with hx | ⟨c', hc', hx⟩
        · rw [hv0] at hx; cases hx
        · have hbt : (b.id, b :: t) ∈ ch := hok 0 b t rfl
          have hceq : c' = b :: t := mem_nodup_unique hnd hc' hbt
          subst hceq
          rw [firstPresentM, hv0] at hx
          simp only [firstPresentM, hm, hv0, Option.getD_some]
          exact hx

theorem resStep_present {α : Type _} (defst : α) (m : List (String × α))
    (kc : String × List Style) (h : (dictGet? m kc.1).isSome) :
    resStep defst m kc = m := by
  simp [resStep, h]

theorem resStep_absent {α : Type _} (defst : α) (m : List (String × α))
    (kc : String × List Style) (h : dictGet? m kc.1 = none) :
    resStep defst m kc = dictInsert m kc.1 ((firstPresentM m kc.2).getD defst) := by
  rw [resStep, if_neg (by simp [h])]
  cases hp : firstPresentM m kc.2 <;> simp

/-- Main invariant of the per-version resolution fold. -/
theorem resolve_fold_inv {α : Type _} (defst : α) (v0 : List (String × α))
    (ch : List (String × List Style)) (hnd : (ch.map Prod.fst).Nodup)
    (hok : ∀ kc ∈ ch, ChainOK ch kc.2) :
    ∀ (r p : List (String × List Style)) (m : List (String × α)), ch = p ++ r →
      InvA v0 m → InvB v0 defst p m →
      InvA v0 (r.foldl (resStep defst) m) ∧ InvB v0 defst ch (r.foldl (resStep defst) m) := by
  intro r
  induction r with
  | nil =>
    intro p m hpr hA hB
    rw [List.append_nil] at hpr
    exact ⟨hA, hpr ▸ hB⟩
  | cons kc r' ih =>
    intro p m hpr hA hB
    obtain ⟨k, c⟩ := kc
    rw [List.foldl_cons]
    have hmem : (k, c) ∈ ch := by
      rw [hpr]
      exact List.mem_append_right p (List.Mem.head _)
    by_cases hkm : (dictGet? m k).isSome
    · rw [resStep_present defst m (k, c) hkm]
      refine ih (p ++ [(k, c)]) m (by rw [hpr]; simp) hA ?_
      exact invB_mono (fun r hr => List.mem_append_left _ hr) hB
    · have hknone : dictGet? m k = none := by
        cases hg : dictGet? m k with
        | none => rfl
        | some x => rw [hg] at hkm; simp at hkm
      rw [resStep_absent defst m (k, c) hknone]
      have hval : (firstPresentM m c).getD defst = (firstPresentM v0 c).getD defst :=
        chainEval defst v0 m ch hnd hA
          (invB_mono (fun r hr => by rw [hpr]; exact List.mem_append_left _ hr) hB)
          c (hok (k, c) hmem)
      refine ih (p ++ [(k, c)]) _ (by rw [hpr]; simp) ?_ ?_
      · intro k' x hx
        have hm' := hA k' x hx
        have hne : k' ≠ k := by
          intro he
          rw [he, hknone] at hm'
          cases hm'
        rw [dictGet_insert_ne m k k' _ hne]
        exact hm'
      · intro k' x hx
        by_cases hke : k' = k
        · subst hke
          rw [dictGet_insert_self] at hx
          refine .inr ⟨c, List.mem_append_right _ (List.Mem.head _), ?_⟩
          rw [← Option.some.inj hx]
          exact hval
        · rw [dictGet_insert_ne m k k' _ hke] at hx
          rcases hB k' x hx with h | ⟨c', hc', h⟩
          · exact .inl h
          · exact .inr ⟨c', List.mem_append_left _ hc', h⟩

theorem resStep_present_mono {α : Type _} (defst : α) (m : List (String × α))
    (kc : String × List Style) (k : String) (h : (dictGet? m k).isSome) :
    (dictGet? (resStep defst m kc) k).isSome := by
  by_cases hp : (dictGet? m kc.1).isSome
  · rw [resStep_present defst m kc hp]; exact h
  · have hn : dictGet? m kc.1 = none := by
      cases hg : dictGet? m kc.1 with
      | none => rfl
      | some x => rw [hg] at hp; simp at hp
    rw [resStep_absent defst m kc hn]
    by_cases hke : k = kc.1
    · subst hke; rw [dictGet_insert_self]; rfl
    · rw [dictGet_insert_ne m kc.1 k _ hke]; exact h

theorem fold_present_mono {α : Type _} (defst : α) :
    ∀ (r : List (String × List Style)) (m : List (String × α)) (k : String),
      (dictGet? m k).isSome → (dictGet? (r.foldl (resStep defst) m) k).isSome := by
  intro r
  induction r with
  | nil => intro m k h; exact h
  | cons kc r' ih =>
    intro m k h
    rw [List.foldl_cons]
    exact ih _ k (resStep_present_mono defst m kc k h)

theorem fold_present {α : Type _} (defst : α) :
    ∀ (r : List (String × List Style)) (m : List (String × α)) (k : String)
      (c : List Style), (k, c) ∈ r →
      (dictGet? (r.foldl (resStep defst) m) k).isSome := by
  intro r
  induction r with
  | nil => intro m k c h; simp at h
  | cons kc r' ih =>
    intro m k c h
    rw [List.foldl_cons]
    rw [List.mem_cons] at h
    rcases h with h | h
    · subst h
      refine fold_present_mono defst r' _ k ?_
      by_cases hp : (dictGet? m k).isSome
      · rw [resStep_present defst m (k, c) hp]; exact hp
      · have hn : dictGet? m k = none := by
          cases hg : dictGet? m k with
          | none => rfl
          | some x => rw [hg] at hp; simp at hp
        rw [resStep_absent defst m (k, c) hn, dictGet_insert_self]
        rfl
    · exact ih _ k c h

/-! ### Claims C1-C3 -/

/-- Modelled from the spec's words, as the refinement target for C2: the
resolved data for a missing style is the data of the first style in its base
chain, excluding the style itself, whose id is present in the version's
pre-resolution mapping; when no such ancestor exists it is the version's
`def_style` data. -/
def specStyleData {α : Type _} (v0 : List (String × α)) (defst : α) (c : List Style) : α :=
  (firstPresentM v0 (c.drop 1)).getD defst

/-- C1: after `setup_style_tree` runs to completion on the parsed data, every
version of every item has an entry in its `styles` mapping for every style id
present in the style index. -/
theorem c1_styles_complete {α : Type _} (fuel : Nat) (d d' : SData α)
    (h : setupStyleTree fuel d = some d')
    (it : SItem α) (hit : it ∈ d'.items) (v : SVer α) (hv : v ∈ it.versions)
    (k : String) (s : Style) (hs : dictGet? (mkIndex d.styles) k = some s) :
    (dictGet? v.styles k).isSome := by
  rw [setupStyleTree] at h
  cases hch : computeChains (mkIndex d.styles) fuel (mkIndex d.styles) with
  | none => rw [hch] at h; cases h
  | some ch =>
    rw [hch] at h
    cases h
    have hit' : it ∈ d.items.map
        (fun it => (⟨it.versions.map (resolveVersion ch)⟩ : SItem α)) := hit
    obtain ⟨it0, _, hit_eq⟩ := List.mem_map.mp hit'
    have hv' : v ∈ it0.versions.map (resolveVersion ch) := by
      rw [← hit_eq] at hv
      exact hv
    obtain ⟨v0, _, hv_eq⟩ := List.mem_map.mp hv'
    obtain ⟨c, hc, _⟩ := computeChains_mem_to hch (dictGet_mem hs)
    rw [← hv_eq]
    exact fold_present v0.def_style ch v0.styles k c hc

/-- C2: for every item version, every style id `k` of the index that is
missing from the version's mapping before resolution ends up mapped to the
data of the first style in `k`'s base chain (nearest ancestor first) whose id
is present in the pre-resolution mapping, with the version's `def_style` data
as the fallback when no ancestor is present (`specStyleData`, taken from the
spec's words); entries present before resolution are preserved unchanged.
The claim's particular case follows: when style B has `base_style = A` and
the version has data for A but not B, B's chain is `[B, A, ...]`, so B
resolves to A's (unchanged) value. -/
theorem c2_inheritance_copies_nearest_ancestor {α : Type _} (fuel : Nat)
    (sl : List Style) (ch : List (String × List Style))
    (hch : computeChains (mkIndex sl) fuel (mkIndex sl) = some ch)
    (v0 : List (String × α)) (defst : α) :
    (∀ k x, dictGet? v0 k = some x →
        dictGet? (resolveVersion ch ⟨v0, defst⟩).styles k = some x)
    ∧ ∀ k c, (k, c) ∈ ch → dictGet? v0 k = none →
        dictGet? (resolveVersion ch ⟨v0, defst⟩).styles k
          = some (specStyleData v0 defst c) := by
  have hnd : (ch.map Prod.fst).Nodup := by
    rw [computeChains_keys hch]
    exact mkIndex_nodup sl
  have hok : ∀ kc ∈ ch, ChainOK ch kc.2 := fun kc hm => (chains_chainOK hch kc hm).1
  have hmain := resolve_fold_inv defst v0 ch hnd hok ch [] v0 (by simp)
    (fun k x hx => hx) (fun k x hx => .inl hx)
  have hres : (resolveVersion ch ⟨v0, defst⟩).styles = ch.foldl (resStep defst) v0 := rfl
  constructor
  · intro k x hx
    rw [hres]
    exact hmain.1 k x hx
  · intro k c hmem hnone
    rw [hres]
    have hpres := fold_present defst ch v0 k c hmem
    obtain ⟨x, hx⟩ := Option.isSome_iff_exists.mp hpres
    rcases hmain.2 k x hx with hcontra | ⟨c', hc', hxval⟩
    · rw [hnone] at hcontra
      cases hcontra
    · have hceq : c' = c := mem_nodup_unique hnd hc' hmem
      subst hceq
      obtain ⟨s, t, hshape, hsid⟩ := (chains_chainOK hch (k, c') hmem).2
      have hshape' : c' = s :: t := hshape
      have hsid' : s.id = k := hsid
      rw [hx, hxval, specStyleData, hshape']
      rw [show firstPresentM v0 (s :: t) = firstPresentM v0 t by
        rw [firstPresentM, hsid', hnone]]
      rfl

/-! Concrete data for the C1/C2 witnesses: style `EX_A` with no base, style
`EX_B` based on `EX_A`, and an item version that has data only for `EX_A`. -/

def styP : Style := ⟨"EX_A", none⟩

def styQ : Style := ⟨"EX_B", some "EX_A"⟩

def exStyles : List Style := [styP, styQ]

def exChains : List (String × List Style) := [("EX_A", [styP]), ("EX_B", [styQ, styP])]

def exVerIn : SVer Nat := ⟨[("EX_A", 7)], 0⟩

def exVerOut : SVer Nat := ⟨[("EX_A", 7), ("EX_B", 7)], 0⟩

def exData : SData Nat := ⟨exStyles, [⟨[exVerIn]⟩]⟩

def exDataOut : SData Nat := ⟨exStyles, [⟨[exVerOut]⟩]⟩

/-- Witness for C1 at concrete data: style `EX_B` has an entry in the
resolved version even though only `EX_A` was declared. -/
theorem c1_styles_complete_witness : (dictGet? exVerOut.styles "EX_B").isSome :=
  c1_styles_complete 3 exData exDataOut rfl ⟨[exVerOut]⟩ (List.Mem.head _)
    exVerOut (List.Mem.head _) "EX_B" styQ rfl

/-- Witness for C2 at concrete data: `EX_B` is missing before resolution and
resolves to the value recorded for its base `EX_A`. -/
theorem c2_inheritance_witness :
    dictGet? (resolveVersion exChains exVerIn).styles "EX_B"
      = some (specStyleData exVerIn.styles (0 : Nat) [styQ, styP]) :=
  (c2_inheritance_copies_nearest_ancestor 3 exStyles exChains rfl exVerIn.styles 0).2
    "EX_B" [styQ, styP] (List.Mem.tail _ (List.Mem.head _)) rfl

/-! Concrete data for C3: two styles whose `base_style` ids form a cycle. -/

def cycStyA : Style := ⟨"CYC_A", some "CYC_B"⟩

def cycStyB : Style := ⟨"CYC_B", some "CYC_A"⟩

def cycData : SData Nat := ⟨[cycStyA, cycStyB], []⟩

theorem cyc_chainLoop (n : Nat) :
    chainLoop [("CYC_A", cycStyA), ("CYC_B", cycStyB)] n (some cycStyA) = none
    ∧ chainLoop [("CYC_A", cycStyA), ("CYC_B", cycStyB)] n (some cycStyB) = none := by
  induction n with
  | zero => exact ⟨rfl, rfl⟩
  | succ n ih =>
    constructor
    · rw [chainLoop_succ, show nextStyle [("CYC_A", cycStyA), ("CYC_B", cycStyB)] cycStyA
          = some cycStyB from rfl, ih.2]
      rfl
    · rw [chainLoop_succ, show nextStyle [("CYC_A", cycStyA), ("CYC_B", cycStyB)] cycStyB
          = some cycStyA from rfl, ih.1]
      rfl

/-- C3 fails on the code: on a base-style cycle the chain loop of
`setup_style_tree` never reaches its exit condition.  In the embedding this
shows as `setupStyleTree` running out of fuel for every fuel value, i.e. the
source's unguarded `while` loop never terminates. -/
theorem c3_cycle_never_terminates :
    ∀ fuel : Nat, setupStyleTree fuel cycData = (none : Option (SData Nat)) := by
  intro fuel
  have hb : mkIndex cycData.styles = [("CYC_A", cycStyA), ("CYC_B", cycStyB)] := rfl
  have h : computeChains [("CYC_A", cycStyA), ("CYC_B", cycStyB)] fuel
      [("CYC_A", cycStyA), ("CYC_B", cycStyB)] = none := by
    simp only [computeChains, (cyc_chainLoop fuel).1]
  rw [setupStyleTree, hb, h]

/-! ### Errors, archives, and definition collection (`parse_package`, source
lines 105-128, and the collection loop of `loadAll`, source lines 50-55)

The `property_parser` module of the repository is not part of the supplied
source; its lookup behaviour (a required-field access raising when the key is
absent) is modelled from the spec's boundary description. -/

/-- A raised Python exception, by kind.  `missingField` stands for the error
`Property.__getitem__` raises on a required key (spec: `MissingField`);
`keyError` for `KeyError` out of `zip.open`; `ioError` for the `IOError`
raised by `Item.parse`; `indexError` for `versions[0]` on an empty list;
`nameError` for an unbound name; `attributeError` for a missing method;
`typeError` for an unhashable dict key. -/
inductive PakErr where
  | missingField (field : String)
  | keyError (path : String)
  | ioError (msg : String)
  | indexError
  | nameError (msg : String)
  | attributeError (msg : String)
  | typeError (msg : String)
deriving DecidableEq

/-- Required-field access `node[k]` with no default.
Modelled from the spec: `property_parser` is not under the supplied source;
per the spec a required manifest field access "fails with `MissingField` if
absent". -/
def getReq (t : PTree) (k : String) : Except PakErr String :=
  match getVal? t k with
  | some v => .ok v
  | none => .error (.missingField k)

/-- An opened archive: entry path to (already parsed) entry content.
`namelist()` is the key list, `zip.open` is lookup. -/
def Archive := List (String × PTree)

/-- The record `parse_package` stores for an original definition:
`(zip, object, pak_id, dispName)`. -/
structure DefRecord where
  arch : Archive
  node : PTree
  pak_id : String
  disp : String

/-- The record stored for an override definition: `(zip, object)`. -/
def OverRec := Archive × PTree

/-- The run-time type of `obj_override[comp_type]`.  It starts as a dict
(initialised to `{}` in `loadAll`), but the override branch of
`parse_package` assigns a plain list over it
(`obj_override[comp_type] = [(zip, object)]`), so the embedding is a sum. -/
inductive OverStore where
  | dict (d : List (String × List OverRec))
  | list (l : List OverRec)

/-- State of one category during collection: the `obj[comp_type]` dict, the
`obj_override[comp_type]` store, and the lines printed so far. -/
structure CatState where
  obj : List (String × DefRecord)
  over : OverStore
  log : List String

/-- The fresh per-category state set up by `loadAll` (source lines 43-45). -/
def emptyCat : CatState := ⟨[], .dict [], []⟩

/-- The duplicate-definition report of `parse_package` (source line 125). -/
def dupMsg (id : String) : String := "ERROR! \"" ++ id ++ "\" defined twice!"

/-- One definition node processed by `parse_package` (source lines 114-127).
Notes on the faithful transcription of the override branch:
* `id in obj_override[comp_type]` tests key membership while the store is
  still a dict, and element membership once it has been replaced by a list;
  a string id never equals a `(zip, object)` tuple, so the list case is
  always false;
* the `append` call would be an `AttributeError` on a dict (dicts have no
  `append`), and the `else` branch replaces the whole store with a
  one-element list. -/
def collectStep (arch : Archive) (pak disp : String) (s : CatState) (node : PTree) :
    Except PakErr CatState :=
  match getReq node "id" with
  | .error e => .error e
  | .ok id =>
    let is_sub := getDf node "overrideOrig" "0" == "1"
    if (dictGet? s.obj id).isSome then
      if is_sub then
        match s.over with
        | .dict d =>
          if (dictGet? d id).isSome then
            .error (.attributeError "dict object has no attribute append")
          else
            .ok { s with over := .list [(arch, node)] }
        | .list _ => .ok { s with over := .list [(arch, node)] }
      else
        .ok { s with log := s.log ++ [dupMsg id] }
    else
      .ok { s with obj := dictInsert s.obj id ⟨arch, node, pak, disp⟩ }

/-- The `for object in Property.find_all(info, comp_type)` loop over one
category's definition nodes; an exception aborts the remaining nodes. -/
def collectList (arch : Archive) (pak disp : String) :
    List PTree → CatState → Except PakErr CatState
  | [], s => .ok s
  | n :: t, s =>
    match collectStep arch pak disp s n with
    | .error e => .error e
    | .ok s' => collectList arch pak disp t s'

/-- The fixed category table `obj_types` (source lines 448-456), in its
iteration order. -/
def objTypes : List String :=
  ["Style", "Item", "QuotePack", "Skybox", "Goo", "Music", "StyleVar"]

/-- The whole collection state: one `CatState` per category name. -/
structure GState where
  cats : List (String × CatState)

/-- The state after `loadAll` initialises `obj`/`obj_override` (source lines
43-45). -/
def gInit : GState := ⟨objTypes.map (fun c => (c, emptyCat))⟩

/-- Category lookup; `loadAll` pre-populates every category, so the default
is never reached on the real control flow. -/
def getCat (g : GState) (c : String) : CatState :=
  (dictGet? g.cats c).getD emptyCat

/-- Store back one category's state. -/
def setCat (g : GState) (c : String) (s : CatState) : GState :=
  ⟨dictInsert g.cats c s⟩

/-- The `for comp_type in obj_types` loop of `parse_package`. -/
def collectCats (arch : Archive) (pak disp : String) (info : PTree) :
    List String → GState → Except PakErr GState
  | [], g => .ok g
  | c :: cs, g =>
    match collectList arch pak disp (findAll info c) (getCat g c) with
    | .error e => .error e
    | .ok s' => collectCats arch pak disp info cs (setCat g c s')

/-- The prerequisite ids declared by a package manifest:
`Property.find_key(info, 'Prerequisites', []).value`, iterated for each
child's value. -/
def getPrereqs (info : PTree) : List String :=
  match info.children.find? (fun c => c.name == "Prerequisites") with
  | some (.node _ cs) => cs.filterMap PTree.sval?
  | _ => []

/-- True when some declared prerequisite id is not a registered package id,
in which case `parse_package` logs and returns `False` (counted as zero). -/
def prereqMissing (info : PTree) (ids : List String) : Bool :=
  (getPrereqs info).any (fun pv => !(ids.contains pv))

/-- Number of definition nodes in a manifest, the `objects` counter of
`parse_package`. -/
def countDefs (info : PTree) : Nat :=
  (objTypes.map (fun c => (findAll info c).length)).sum

/-- `parse_package` (source lines 105-128): reject the package when a
prerequisite is missing (returning `False`, which the caller adds as 0),
otherwise walk every category's definition nodes.  An uncaught exception
(there is no handler in the source) propagates to the caller. -/
def parsePackage (ids : List String) (arch : Archive) (info : PTree)
    (pak disp : String) (g : GState) : Except PakErr (GState × Nat) :=
  if prereqMissing info ids then .ok (g, 0)
  else
    match collectCats arch pak disp info objTypes g with
    | .error e => .error e
    | .ok g' => .ok (g', countDefs info)

/-- One registered package as the registry stores it. -/
structure Pkg where
  pak_id : String
  arch : Archive
  info : PTree
  disp : String

/-- The collection loop of `loadAll` (source lines 50-55), which calls
`parse_package` per package inside a `try`/`finally` with no `except`
handler: an exception aborts every remaining package. -/
def loadGo (ids : List String) : List Pkg → GState → Nat → Except PakErr (GState × Nat)
  | [], g, n => .ok (g, n)
  | p :: t, g, n =>
    match parsePackage ids p.arch p.info p.pak_id p.disp g with
    | .error e => .error e
    | .ok (g', m) => loadGo ids t g' (n + m)

/-- The whole definition-collection stage of `loadAll`: the registry is fully
populated before collection starts, so prerequisite checks see every id. -/
def loadAllCollect (pkgs : List Pkg) : Except PakErr (GState × Nat) :=
  loadGo (pkgs.map Pkg.pak_id) pkgs gInit 0

/-! ### Claims C4, C8, C9 -/

/-- Concrete definition nodes for the collection claims. -/
def origA : PTree := .node "Style" [.leaf "id" "A"]

def origB : PTree := .node "Style" [.leaf "id" "B"]

def ovA : PTree := .node "Style" [.leaf "id" "A", .leaf "overrideOrig" "1"]

def ovB : PTree := .node "Style" [.leaf "id" "B", .leaf "overrideOrig" "1"]

def ovC : PTree := .node "Style" [.leaf "id" "C", .leaf "overrideOrig" "1"]

/-- C4 fails on the code; this theorem evaluates the collection at the
failing inputs.  First conjunct: an override (`overrideOrig = "1"`) whose id
has no original yet is stored as the id's *original*, not appended to any
override list.  Second conjunct: after originals A and B and overrides for
both, the category's override store has been replaced by a plain list holding
only the last override (B's); A's override is lost, and no per-id override
lists exist. -/
theorem c4_override_collection_eval :
    collectList [] "p" "P" [ovC] emptyCat
      = .ok ⟨[("C", ⟨[], ovC, "p", "P"⟩)], .dict [], []⟩
    ∧ collectList [] "p" "P" [origA, origB, ovA, ovB] emptyCat
      = .ok ⟨[("A", ⟨[], origA, "p", "P"⟩), ("B", ⟨[], origB, "p", "P"⟩)],
             .list [([], ovB)], []⟩ :=
  ⟨rfl, rfl⟩

/-- C9: a second non-override definition with an already-collected id leaves
the category state unchanged apart from an error report appended to the log
(the first original's record is retained, the later definition is dropped),
and collection of the remaining definitions continues. -/
theorem c9_duplicate_id_dropped (arch : Archive) (pak disp : String) (s : CatState)
    (node : PTree) (rest : List PTree) (i : String) (rec : DefRecord)
    (hid : getVal? node "id" = some i)
    (hsub : (getDf node "overrideOrig" "0" == "1") = false)
    (hdup : dictGet? s.obj i = some rec) :
    collectStep arch pak disp s node = .ok { s with log := s.log ++ [dupMsg i] }
    ∧ dictGet? ({ s with log := s.log ++ [dupMsg i] } : CatState).obj i = some rec
    ∧ collectList arch pak disp (node :: rest) s
        = collectList arch pak disp rest { s with log := s.log ++ [dupMsg i] } := by
  have hstep : collectStep arch pak disp s node
      = .ok { s with log := s.log ++ [dupMsg i] } := by
    simp [collectStep, getReq, hid, hsub, hdup]
  refine ⟨hstep, hdup, ?_⟩
  simp only [collectList, hstep]

/-- Concrete state for the C9 witness: id `X` already collected from
package `p1`. -/
def rec9 : DefRecord := ⟨[], origA, "p1", "P1"⟩

def node9 : PTree := .node "Style" [.leaf "id" "X"]

def s9 : CatState := ⟨[("X", rec9)], .dict [], []⟩

/-- Witness for C9 at concrete data. -/
theorem c9_duplicate_id_dropped_witness :
    collectStep ([] : List (String × PTree)) "p2" "P2" s9 node9
      = .ok ⟨[("X", rec9)], .dict [], [dupMsg "X"]⟩
    ∧ dictGet? (⟨[("X", rec9)], .dict [], [dupMsg "X"]⟩ : CatState).obj "X" = some rec9
    ∧ collectList [] "p2" "P2" [node9] s9
        = collectList [] "p2" "P2" [] ⟨[("X", rec9)], .dict [], [dupMsg "X"]⟩ :=
  c9_duplicate_id_dropped [] "p2" "P2" s9 node9 [] "X" rec9 rfl rfl rfl

/-- Concrete packages for C8: the first definition of package `bad` has no
`id` field; a well-formed definition follows it, and a second package
follows that. -/
def noIdNode : PTree := .node "Style" [.leaf "name" "x"]

def okNode : PTree := .node "Style" [.leaf "id" "GOOD"]

def infoBad : PTree := .node "" [noIdNode, okNode]

def infoOk : PTree := .node "" [okNode]

def pkgBad : Pkg := ⟨"bad", [], infoBad, "Bad"⟩

def pkgOk : Pkg := ⟨"ok", [], infoOk, "Ok"⟩

/-- C8 as stated is false on the code: with a definition node lacking `id`,
the whole collection stage returns the raised error — the same package's
later definition and the following package are never collected and the load
does not complete. -/
theorem c8_counterexample_load_aborts :
    loadAllCollect [pkgBad, pkgOk] = .error (.missingField "id") := rfl

/-- C8 amended: a definition node lacking `id` raises `MissingField`; the
error is not caught anywhere, so it aborts the rest of that category's
definitions, `parse_package` as a whole, and the remaining packages of the
`loadAll` collection loop. -/
theorem c8_missing_id_aborts (node : PTree) (hid : getVal? node "id" = none) :
    (∀ (arch : Archive) (pak disp : String) (t : List PTree) (s : CatState),
        collectList arch pak disp (node :: t) s = .error (.missingField "id"))
    ∧ (∀ (ids : List String) (arch : Archive) (info : PTree) (pak disp : String)
        (g : GState) (rest : List PTree) (more : List Pkg) (n : Nat),
        prereqMissing info ids = false →
        findAll info "Style" = node :: rest →
        parsePackage ids arch info pak disp g = .error (.missingField "id")
        ∧ loadGo ids (⟨pak, arch, info, disp⟩ :: more) g n
            = .error (.missingField "id")) := by
  have hstep : ∀ (arch : Archive) (pak disp : String) (s : CatState),
      collectStep arch pak disp s node = .error (.missingField "id") := by
    intro arch pak disp s
    simp [collectStep, getReq, hid]
  have hlist : ∀ (arch : Archive) (pak disp : String) (t : List PTree) (s : CatState),
      collectList arch pak disp (node :: t) s = .error (.missingField "id") := by
    intro arch pak disp t s
    simp only [collectList, hstep]
  refine ⟨hlist, ?_⟩
  intro ids arch info pak disp g rest more n hpre hfirst
  have hcats : collectCats arch pak disp info objTypes g = .error (.missingField "id") := by
    rw [show objTypes
        = "Style" :: ["Item", "QuotePack", "Skybox", "Goo", "Music", "StyleVar"] from rfl]
    simp only [collectCats, hfirst, hlist]
  have hpp : parsePackage ids arch info pak disp g = .error (.missingField "id") := by
    simp only [parsePackage, hpre, Bool.false_eq_true, if_false, hcats]
  exact ⟨hpp, by simp only [loadGo, hpp]⟩

/-- Witness for the amended C8 at concrete data. -/
theorem c8_missing_id_aborts_witness :
    collectList ([] : List (String × PTree)) "p" "P" [noIdNode] emptyCat
      = .error (.missingField "id")
    ∧ parsePackage ["bad"] [] infoBad "bad" "Bad" gInit = .error (.missingField "id")
    ∧ loadGo ["bad", "ok"] [pkgBad, pkgOk] gInit 0 = .error (.missingField "id") :=
  ⟨(c8_missing_id_aborts noIdNode rfl).1 [] "p" "P" [] emptyCat,
   ((c8_missing_id_aborts noIdNode rfl).2 ["bad"] [] infoBad "bad" "Bad" gInit
      [okNode] [] 0 rfl rfl).1,
   ((c8_missing_id_aborts noIdNode rfl).2 ["bad", "ok"] [] infoBad "bad" "Bad" gInit
      [okNode] [pkgOk] 0 rfl rfl).2⟩

/-! ### Shared selection metadata and the simple category parsers
(source lines 274-424, 426-446) -/

/-- Python `str.split(delim)` on a one-character delimiter (the source only
ever splits on `","` and `";"`), over the character list. -/
def splitChar (delim : Char) : List Char → List (List Char)
  | [] => [[]]
  | c :: t =>
    if c = delim then [] :: splitChar delim t
    else
      match splitChar delim t with
      | [] => [[c]]
      | h :: r => (c :: h) :: r

/-- Python `str.strip()`: drop leading and trailing whitespace. -/
def pyStrip (cs : List Char) : List Char :=
  ((cs.dropWhile Char.isWhitespace).reverse.dropWhile Char.isWhitespace).reverse

/-- `sep_values` (source lines 444-446): split, strip each piece, drop the
empty ones. -/
def sepValues (s : String) (delim : Char) : List String :=
  (((splitChar delim s.toList).map pyStrip).filter (fun cs => !cs.isEmpty)).map
    (fun cs => ⟨cs⟩)

/-- `desc_parse` (source lines 426-432).  A block child's lines are its leaf
children (a nested block has a list value in Python, which no manifest in
scope produces); `casefold` is modelled by `toLower`. -/
def descParse (info : PTree) : List (String × String) :=
  (findAll info "description").flatMap (fun p =>
    match p with
    | .node _ cs =>
      cs.filterMap (fun l => (PTree.sval? l).map (fun v => (l.name.toLower, v)))
    | .leaf _ v => [("line", v)])

/-- The tuple returned by `get_selitem_data` (source lines 434-442); `name`
is required, everything else has a default. -/
structure SelData where
  name : String
  short_name : Option String
  auth : List String
  icon : String
  desc : List (String × String)

/-- `get_selitem_data` (source lines 434-442). -/
def getSelitemData (info : PTree) : Except PakErr SelData :=
  match getVal? info "name" with
  | none => .error (.missingField "name")
  | some name =>
    .ok ⟨name, getVal? info "shortName",
         sepValues (getDf info "authors" "") ',',
         getDf info "icon" "_blank",
         descParse info⟩

/-- The `Voice` class (source lines 274-298); `short_name` is resolved to
`name` in `__init__` when absent.  A parsed configuration resource is stored
as a one-element list, an absent one as the empty list. -/
structure Voice where
  id : String
  name : String
  short_name : String
  icon : String
  desc : List (String × String)
  auth : List String
  config : List PTree

/-- `Voice.parse` (source lines 284-292): builds `voice/<file>.voice` and
opens it with **no** existence check, so an absent entry raises `KeyError`. -/
def voiceParse (arch : Archive) (id : String) (info : PTree) : Except PakErr Voice :=
  match getSelitemData info with
  | .error e => .error e
  | .ok sel =>
    match getReq info "file" with
    | .error e => .error e
    | .ok file =>
      match dictGet? arch ("voice/" ++ file ++ ".voice") with
      | none => .error (.keyError ("voice/" ++ file ++ ".voice"))
      | some t =>
        .ok ⟨id, sel.name, sel.short_name.getD sel.name, sel.icon, sel.desc,
             sel.auth, [t]⟩

/-- The `Skybox` class (source lines 300-335). -/
structure Skybox where
  id : String
  name : String
  short_name : String
  icon : String
  material : String
  config : List PTree
  auth : List String
  desc : List (String × String)

/-- `Skybox.parse` (source lines 311-327), paired with the lines it prints.
When a config name is given it checks `skybox/<name>.cfg` against the name
list, but then opens the entry `<name>` (a source slip kept as is); when the
checked path is absent it prints and uses an empty configuration. -/
def skyboxParse (arch : Archive) (id : String) (info : PTree) :
    Except PakErr (Skybox × List String) :=
  match getSelitemData info with
  | .error e => .error e
  | .ok sel =>
    if getDf info "config" "" == "" then
      .ok (⟨id, sel.name, sel.short_name.getD sel.name, sel.icon,
            getDf info "material" "sky_black", [], sel.auth, sel.desc⟩, [])
    else if (dictGet? arch ("skybox/" ++ sel.name ++ ".cfg")).isSome then
      match dictGet? arch sel.name with
      | none => .error (.keyError sel.name)
      | some t =>
        .ok (⟨id, sel.name, sel.short_name.getD sel.name, sel.icon,
              getDf info "material" "sky_black", [t], sel.auth, sel.desc⟩, [])
    else
      .ok (⟨id, sel.name, sel.short_name.getD sel.name, sel.icon,
            getDf info "material" "sky_black", [], sel.auth, sel.desc⟩,
           [sel.name ++ ".cfg not in zip!"])

/-- `Skybox.add_over` (source lines 329-332).  The body reads `sky.auth`,
but `sky` is an unbound name (the parameter is spelled `overide`), so the
call raises `NameError` before any list is extended. -/
def Skybox.add_over (_self _overide : Skybox) : Except PakErr Skybox :=
  .error (.nameError "name sky is not defined")

/-- The `Goo` class (source lines 337-371). -/
structure Goo where
  id : String
  name : String
  short_name : String
  icon : String
  material : String
  cheap_material : String
  auth : List String
  desc : List (String × String)
  config : List PTree

/-- `Goo.parse` (source lines 349-363): `goo/<config>` is looked up in the
name list; absent means an empty configuration, with nothing printed. -/
def gooParse (arch : Archive) (id : String) (info : PTree) : Except PakErr Goo :=
  match getSelitemData info with
  | .error e => .error e
  | .ok sel =>
    match dictGet? arch ("goo/" ++ getDf info "config" "") with
    | some t =>
      .ok ⟨id, sel.name, sel.short_name.getD sel.name, sel.icon,
           getDf info "material" "nature/toxicslime_a2_bridge_intro",
           getDf info "material_cheap"
             (getDf info "material" "nature/toxicslime_a2_bridge_intro"),
           sel.auth, sel.desc, [t]⟩
    | none =>
      .ok ⟨id, sel.name, sel.short_name.getD sel.name, sel.icon,
           getDf info "material" "nature/toxicslime_a2_bridge_intro",
           getDf info "material_cheap"
             (getDf info "material" "nature/toxicslime_a2_bridge_intro"),
           sel.auth, sel.desc, []⟩

/-- `Goo.add_over` (source lines 365-368): extend config, then authors. -/
def Goo.add_over (g o : Goo) : Goo :=
  { g with config := g.config ++ o.config, auth := g.auth ++ o.auth }

/-- The `Music` class (source lines 373-404). -/
structure Music where
  id : String
  name : String
  short_name : String
  icon : String
  inst : String
  auth : List String
  desc : List (String × String)
  config : List PTree

/-- `Music.parse` (source lines 384-396): `instance` is required;
`music/<config>` absent means an empty configuration, nothing printed. -/
def musicParse (arch : Archive) (id : String) (info : PTree) : Except PakErr Music :=
  match getSelitemData info with
  | .error e => .error e
  | .ok sel =>
    match getReq info "instance" with
    | .error e => .error e
    | .ok inst =>
      match dictGet? arch ("music/" ++ getDf info "config" "") with
      | some t =>
        .ok ⟨id, sel.name, sel.short_name.getD sel.name, sel.icon, inst,
             sel.auth, sel.desc, [t]⟩
      | none =>
        .ok ⟨id, sel.name, sel.short_name.getD sel.name, sel.icon, inst,
             sel.auth, sel.desc, []⟩

/-- `Music.add_over` (source lines 398-401). -/
def Music.add_over (m o : Music) : Music :=
  { m with config := m.config ++ o.config, auth := m.auth ++ o.auth }

/-- The `StyleVar` class (source lines 406-424). -/
structure StyleVar where
  id : String
  name : String
  styles : List String
  dfault : Bool

/-- `StyleVar.add_over` (source lines 420-421). -/
def StyleVar.add_over (s o : StyleVar) : StyleVar :=
  { s with styles := s.styles ++ o.styles }

/-! ### Claims C6 and C7 -/

def sk0 : Skybox := ⟨"SK1", "n1", "n1", "i", "m", [.leaf "c" "0"], ["a1"], []⟩

def sk1 : Skybox := ⟨"SK2", "n2", "n2", "i", "m", [.leaf "c" "1"], ["a2"], []⟩

def goo0 : Goo := ⟨"G1", "n1", "n1", "i", "m", "mc", ["a1"], [], [.leaf "c" "0"]⟩

def goo1 : Goo := ⟨"G2", "n2", "n2", "i", "m", "mc", ["a2"], [], [.leaf "c" "1"]⟩

def mus0 : Music := ⟨"M1", "n1", "n1", "i", "in1", ["a1"], [], [.leaf "c" "0"]⟩

def mus1 : Music := ⟨"M2", "n2", "n2", "i", "in2", ["a2"], [], [.leaf "c" "1"]⟩

def sv0 : StyleVar := ⟨"V1", "n1", ["s1"], false⟩

def sv1 : StyleVar := ⟨"V2", "n2", ["s2"], true⟩

/-- C6 fails on the code for Skybox; this theorem evaluates the merges.
`Skybox.add_over` raises `NameError` (its body refers to the unbound name
`sky`) instead of appending; `Goo`, `Music` and `StyleVar` do append their
override's list-valued fields as the claim states. -/
theorem c6_add_over_eval :
    Skybox.add_over sk0 sk1 = .error (.nameError "name sky is not defined")
    ∧ (Goo.add_over goo0 goo1).auth = ["a1", "a2"]
    ∧ (Goo.add_over goo0 goo1).config = [.leaf "c" "0", .leaf "c" "1"]
    ∧ (Music.add_over mus0 mus1).auth = ["a1", "a2"]
    ∧ (Music.add_over mus0 mus1).config = [.leaf "c" "0", .leaf "c" "1"]
    ∧ (StyleVar.add_over sv0 sv1).styles = ["s1", "s2"] :=
  ⟨rfl, rfl, rfl, rfl, rfl, rfl⟩

/-- A voice definition that names a configuration file absent from its
(empty) archive. -/
def voiceInfo : PTree := .node "QuotePack" [.leaf "name" "VN", .leaf "file" "f"]

/-- C7 as stated is false on the code for Voice: with the configured resource
absent from the archive, `Voice.parse` raises `KeyError` rather than
returning a `Voice` with an empty configuration. -/
theorem c7_counterexample_voice_raises :
    voiceParse [] "v1" voiceInfo = .error (.keyError "voice/f.voice") := rfl

/-- C7 amended: for Skybox, Goo and Music, an absent configured resource is
not fatal: parsing returns the object with an empty configuration, and
Skybox logs the absence (Goo and Music print nothing; Voice instead raises,
see the counterexample). -/
theorem c7_absent_config_not_fatal (arch : Archive) (id : String) (info : PTree)
    (sel : SelData) (hsel : getSelitemData info = .ok sel) :
    ((getDf info "config" "" == "") = false →
      dictGet? arch ("skybox/" ++ sel.name ++ ".cfg") = none →
      ∃ sb : Skybox, skyboxParse arch id info
          = .ok (sb, [sel.name ++ ".cfg not in zip!"]) ∧ sb.config = [])
    ∧ (dictGet? arch ("goo/" ++ getDf info "config" "") = none →
      ∃ g : Goo, gooParse arch id info = .ok g ∧ g.config = [])
    ∧ (∀ inst, getReq info "instance" = .ok inst →
      dictGet? arch ("music/" ++ getDf info "config" "") = none →
      ∃ m : Music, musicParse arch id info = .ok m ∧ m.config = []) := by
  refine ⟨?_, ?_, ?_⟩
  · intro hconf habs
    refine ⟨⟨id, sel.name, sel.short_name.getD sel.name, sel.icon,
             getDf info "material" "sky_black", [], sel.auth, sel.desc⟩, ?_, rfl⟩
    simp only [skyboxParse, hsel, hconf, Bool.false_eq_true, if_false, habs,
      Option.isSome_none]
  · intro habs
    refine ⟨⟨id, sel.name, sel.short_name.getD sel.name, sel.icon,
             getDf info "material" "nature/toxicslime_a2_bridge_intro",
             getDf info "material_cheap"
               (getDf info "material" "nature/toxicslime_a2_bridge_intro"),
             sel.auth, sel.desc, []⟩, ?_, rfl⟩
    simp only [gooParse, hsel, habs]
  · intro inst hinst habs
    refine ⟨⟨id, sel.name, sel.short_name.getD sel.name, sel.icon, inst,
             sel.auth, sel.desc, []⟩, ?_, rfl⟩
    simp only [musicParse, hsel, hinst, habs]

def skyInfo : PTree := .node "Skybox" [.leaf "name" "SN", .leaf "config" "c"]

def gooInfo : PTree := .node "Goo" [.leaf "name" "GN"]

def musInfo : PTree := .node "Music" [.leaf "name" "MN", .leaf "instance" "i"]

/-- Witness for the amended C7 at concrete data: for each of Skybox, Goo,
Music, a definition against an empty archive parses to an object with an
empty configuration. -/
theorem c7_absent_config_not_fatal_witness :
    (∃ sb : Skybox, skyboxParse [] "s1" skyInfo = .ok (sb, ["SN.cfg not in zip!"])
      ∧ sb.config = [])
    ∧ (∃ g : Goo, gooParse [] "g1" gooInfo = .ok g ∧ g.config = [])
    ∧ (∃ m : Music, musicParse [] "m1" musInfo = .ok m ∧ m.config = []) :=
  ⟨(c7_absent_config_not_fatal [] "s1" skyInfo ⟨"SN", none, [], "_blank", []⟩ rfl).1
      rfl rfl,
   (c7_absent_config_not_fatal [] "g1" gooInfo ⟨"GN", none, [], "_blank", []⟩ rfl).2.1
      rfl,
   (c7_absent_config_not_fatal [] "m1" musInfo ⟨"MN", none, [], "_blank", []⟩ rfl).2.2
      "i" rfl rfl⟩

/-! ### `Item.parse` (source lines 208-272) -/

/-- One version's raw data as first built by `Item.parse`: the `styles` dict
still maps style ids to folder identifier strings, and `def_style` is the
first style value seen (or `None` when the version has no styles). -/
structure RawVer where
  name : String
  is_beta : Bool
  is_dep : Bool
  styles : List (String × String)
  def_style : Option String

/-- Python dict-key insertion for the `folders` dict (only its keys matter:
the values, `True`, are later overwritten by folder data). -/
def listKeyInsert (l : List String) (k : String) : List String :=
  if l.contains k then l else l ++ [k]

/-- One `sty` child of a `styles` block (source lines 228-232): set
`def_style` if still unset, record the style-to-folder entry, record the
folder key.  A block child would put a list into the `folders` dict key,
which is Python's unhashable-type `TypeError`. -/
def addStyleChild (st : List (String × String) × Option String × List String)
    (sty : PTree) : Except PakErr (List (String × String) × Option String × List String) :=
  match sty with
  | .leaf n v =>
    .ok (dictInsert st.1 n v,
         (match st.2.1 with
          | none => some v
          | some d => some d),
         listKeyInsert st.2.2 v)
  | .node _ _ => .error (.typeError "unhashable type list")

def addStyleChildren :
    List PTree → (List (String × String) × Option String × List String) →
    Except PakErr (List (String × String) × Option String × List String)
  | [], st => .ok st
  | c :: t, st =>
    match addStyleChild st c with
    | .error e => .error e
    | .ok st' => addStyleChildren t st'

/-- The `for sty_list in ver.find_all('styles')` loop. -/
def addStyleBlocks :
    List PTree → (List (String × String) × Option String × List String) →
    Except PakErr (List (String × String) × Option String × List String)
  | [], st => .ok st
  | b :: t, st =>
    match addStyleChildren b.children st with
    | .error e => .error e
    | .ok st' => addStyleBlocks t st'

/-- The `for ver in info.find_all("version")` loop (source lines 219-233),
threading the shared `folders` key set through the versions. -/
def parseVersions (folders0 : List String) :
    List PTree → Except PakErr (List RawVer × List String)
  | [] => .ok ([], folders0)
  | ver :: t =>
    match addStyleBlocks (findAll ver "styles") ([], none, folders0) with
    | .error e => .error e
    | .ok (sts, ds, folders1) =>
      match parseVersions folders1 t with
      | .error e => .error e
      | .ok (rest, folders2) =>
        .ok (⟨getDf ver "name" "", getDf ver "beta" "0" == "1",
              getDf ver "deprecated" "0" == "1", sts, ds⟩ :: rest, folders2)

/-- The per-folder data built at source lines 244-253. -/
structure Folder where
  auth : List String
  tags : List String
  desc : List (String × String)
  ent : String
  url : Option String
  icons : List (String × String)
  editor : List PTree
  vbsp : Option PTree

/-- The icon dict comprehension over `props['icon', []]` (source line 250):
the leaf children of the `icon` block, with dict update semantics. -/
def iconsOf (props : PTree) : List (String × String) :=
  match props.children.find? (fun c => c.name == "icon") with
  | some (.node _ cs) =>
    cs.foldl (fun m c =>
      match c with
      | .leaf n v => dictInsert m n v
      | .node _ _ => m) []
  | _ => []

/-- Resolution of one folder identifier (source lines 234-259): both
`properties.txt` and `editoritems.txt` must exist, else `IOError`;
`find_key(..., 'Properties')` raises when that block is absent; the
`vbsp_config.cfg` sibling is optional. -/
def resolveFolder (arch : Archive) (fold : String) : Except PakErr Folder :=
  match dictGet? arch ("items/" ++ fold ++ "/properties.txt"),
        dictGet? arch ("items/" ++ fold ++ "/editoritems.txt") with
  | some pt, some et =>
    (match findKeyE pt "Properties" with
     | .error k => .error (.missingField k)
     | .ok props =>
       .ok ⟨sepValues (getDf props "authors" "") ',',
            sepValues (getDf props "tags" "") ';',
            descParse props,
            getDf props "ent_count" "??",
            getVal? props "infoURL",
            iconsOf props,
            findAll et "Item",
            dictGet? arch ("items/" ++ fold ++ "/vbsp_config.cfg")⟩)
  | _, _ => .error (.ioError ("items/" ++ fold ++ " not valid"))

/-- The `for fold in folders` resolution loop, in key insertion order. -/
def resolveFolders (arch : Archive) : List String → Except PakErr (List (String × Folder))
  | [] => .ok []
  | f :: t =>
    match resolveFolder arch f with
    | .error e => .error e
    | .ok fd =>
      match resolveFolders arch t with
      | .error e => .error e
      | .ok r => .ok ((f, fd) :: r)

/-- One version after the rewrite loop of source lines 260-264: styles map to
folder data; `def_style` is `None`, a still-raw folder-identifier string, or
folder data (values are heterogeneous in Python, hence the sum). -/
structure FinalVer where
  name : String
  is_beta : Bool
  is_dep : Bool
  styles : List (String × Folder)
  def_style : Option (String ⊕ Folder)

/-- The `for sty, fold in ver['styles'].items()` rewrite (source lines
263-264); a folder id absent from the dict would be Python's `KeyError`. -/
def rewriteStyles (folders : List (String × Folder)) :
    List (String × String) → Except PakErr (List (String × Folder))
  | [] => .ok []
  | (k, f) :: t =>
    match dictGet? folders f with
    | none => .error (.keyError f)
    | some fd =>
      match rewriteStyles folders t with
      | .error e => .error e
      | .ok r => .ok ((k, fd) :: r)

/-- The rewrite of one version (source lines 260-264).  The source reads
`folders[vals['def_style']]` — `vals` is the **last** version's dict left
over from the earlier loop, not `ver` — so every version whose `def_style`
is a known folder id receives the last version's `def_style` folder data
(`lastDef` here); a last version without styles makes that `folders[None]`,
a `KeyError`. -/
def rewriteDefStyle (folders : List (String × Folder)) (lastDef : Option String) :
    Option String → Except PakErr (Option (String ⊕ Folder))
  | none => .ok none
  | some ds =>
    if (dictGet? folders ds).isSome then
      match lastDef with
      | none => .error (.keyError "None")
      | some ld =>
        match dictGet? folders ld with
        | none => .error (.keyError ld)
        | some fd => .ok (some (.inr fd))
    else .ok (some (.inl ds))

def rewriteVer (folders : List (String × Folder)) (lastDef : Option String)
    (ver : RawVer) : Except PakErr FinalVer :=
  match rewriteDefStyle folders lastDef ver.def_style with
  | .error e => .error e
  | .ok ds' =>
    match rewriteStyles folders ver.styles with
    | .error e => .error e
    | .ok sts => .ok ⟨ver.name, ver.is_beta, ver.is_dep, sts, ds'⟩

def rewriteAll (folders : List (String × Folder)) (lastDef : Option String) :
    List RawVer → Except PakErr (List FinalVer)
  | [] => .ok []
  | v :: t =>
    match rewriteVer folders lastDef v with
    | .error e => .error e
    | .ok v' =>
      match rewriteAll folders lastDef t with
      | .error e => .error e
      | .ok r => .ok (v' :: r)

/-- The `Item` object: `__init__` reads `versions[0]['def_style']`
(source line 212), an `IndexError` when there are no versions. -/
structure ItemObj where
  id : String
  versions : List FinalVer
  def_data : Option (String ⊕ Folder)

/-- `Item.parse` (source lines 213-265) followed by `Item.__init__`. -/
def itemParse (arch : Archive) (id : String) (info : PTree) : Except PakErr ItemObj :=
  match parseVersions [] (findAll info "version") with
  | .error e => .error e
  | .ok (raws, folderKeys) =>
    match resolveFolders arch folderKeys with
    | .error e => .error e
    | .ok folders =>
      match rewriteAll folders ((raws.getLast?).bind RawVer.def_style) raws with
      | .error e => .error e
      | .ok [] => .error .indexError
      | .ok (v :: vs) => .ok ⟨id, v :: vs, v.def_style⟩

/-! ### Claims C5 and C10 -/

def emptyEditor : PTree := .node "" []

def f1props : PTree := .node "" [.node "Properties" [.leaf "ent_count" "1"]]

def f2props : PTree := .node "" [.node "Properties" [.leaf "ent_count" "2"]]

/-- An archive with two valid item folders `f1` (ent count 1) and `f2`
(ent count 2). -/
def arch5 : Archive :=
  [("items/f1/properties.txt", f1props), ("items/f1/editoritems.txt", emptyEditor),
   ("items/f2/properties.txt", f2props), ("items/f2/editoritems.txt", emptyEditor)]

/-- An item with two versions: version 1 declares folder `f1` (also its
`def_style`), version 2 declares folder `f2`. -/
def info5 : PTree :=
  .node "Item" [.node "version" [.node "styles" [.leaf "sa" "f1"]],
                .node "version" [.node "styles" [.leaf "sb" "f2"]]]

/-- The ent-count of the folder data recorded in a version's `def_style`. -/
def defEnt (v : FinalVer) : Option String :=
  match v.def_style with
  | some (.inr f) => some f.ent
  | _ => none

/-- C5 fails on the code; this theorem evaluates `Item.parse` at a two-
version item.  The `styles` mappings are rewritten correctly (version 1
carries `f1`'s data with ent count "1", version 2 carries `f2`'s), but both
versions' `def_style` fields receive the *last* version's folder data (ent
count "2") — version 1's declared `def_style` folder `f1` has ent count "1",
as the last conjunct shows. -/
theorem c5_def_style_rewrite_eval :
    (∃ it : ItemObj, itemParse arch5 "w" info5 = .ok it
      ∧ it.versions.map defEnt = [some "2", some "2"]
      ∧ it.versions.map (fun v => v.styles.map (fun p => (p.1, p.2.ent)))
          = [[("sa", "1")], [("sb", "2")]])
    ∧ ∃ fd : Folder, resolveFolder arch5 "f1" = .ok fd ∧ fd.ent = "1" :=
  ⟨⟨_, rfl, rfl, rfl⟩, ⟨_, rfl, rfl⟩⟩

/-- C10: `Item.parse` on a definition with zero `version` blocks fails with
the `IndexError` out of `Item.__init__` reading `versions[0]`, and every
successfully parsed item has at least one version. -/
theorem c10_item_needs_version (arch : Archive) (id : String) (info : PTree) :
    (findAll info "version" = [] → itemParse arch id info = .error .indexError)
    ∧ (∀ it : ItemObj, itemParse arch id info = .ok it → it.versions ≠ []) := by
  constructor
  · intro h
    rw [itemParse, h]
    rfl
  · intro it hok
    rw [itemParse] at hok
    split at hok
    · cases hok
    · split at hok
      · cases hok
      · split at hok
        · cases hok
        · cases hok
        · cases hok
          simp

def infoNoVer : PTree := .node "Item" []

def fldW : Folder := ⟨[], [], [], "??", none, [], [], none⟩

def archW : Archive :=
  [("items/f/properties.txt", .node "" [.node "Properties" []]),
   ("items/f/editoritems.txt", emptyEditor)]

def infoOneVer : PTree := .node "Item" [.node "version" [.node "styles" [.leaf "a" "f"]]]

def itemW : ItemObj :=
  ⟨"w", [⟨"", false, false, [("a", fldW)], some (.inr fldW)⟩], some (.inr fldW)⟩

/-- Witness for C10 at concrete data. -/
theorem c10_item_needs_version_witness :
    itemParse [] "x" infoNoVer = .error .indexError ∧ itemW.versions ≠ [] :=
  ⟨(c10_item_needs_version [] "x" infoNoVer).1 rfl,
   (c10_item_needs_version archW "w" infoOneVer).2 itemW rfl⟩

end BEE2
